import Mathlib

/-!
Verification development for the tee-sniper booking API core
(src/api/app): the credential encryption service, the HTML
availability parsing, the booking client validation logic, and the
Redis-backed session manager.

Python byte strings are modelled as `List Nat` (each element a byte
value < 256); Python `str` values that flow through UTF-8
encoding/decoding are modelled as `List Nat` of Unicode code points;
other strings are plain Lean `String`s.
-/

namespace TeeSniper

/-! ### Base64 (model of Python `base64.b64encode` / `b64decode`)

`b64decode` is Python's non-strict decoder: characters outside the
base64 alphabet (and outside padding) are discarded before the length
check; it fails (raises `binascii.Error`) when the kept characters are
not a multiple of four, or when the data characters are one more than
a multiple of four. -/

/-- ASCII code of the base64 alphabet character at index n (n < 64). -/
def b64Char (n : Nat) : Nat :=
  if n < 26 then 65 + n
  else if n < 52 then 97 + (n - 26)
  else if n < 62 then 48 + (n - 52)
  else if n = 62 then 43
  else 47

/-- Index of an ASCII code in the base64 alphabet, none if not in it. -/
def b64Val (c : Nat) : Option Nat :=
  if 65 ≤ c ∧ c ≤ 90 then some (c - 65)
  else if 97 ≤ c ∧ c ≤ 122 then some (c - 97 + 26)
  else if 48 ≤ c ∧ c ≤ 57 then some (c - 48 + 52)
  else if c = 43 then some 62
  else if c = 47 then some 63
  else none

/-- Bytes to base64 sextets (without padding characters). -/
def bytesToSextets : List Nat → List Nat
  | a :: b :: c :: rest =>
      a / 4 :: (a % 4 * 16 + b / 16) :: (b % 16 * 4 + c / 64) :: c % 64 ::
        bytesToSextets rest
  | [a, b] => [a / 4, a % 4 * 16 + b / 16, b % 16 * 4]
  | [a] => [a / 4, a % 4 * 16]
  | [] => []

/-- Padding characters appended for a byte string of length n (61 = ASCII of the padding character). -/
def b64PadFor (n : Nat) : List Nat :=
  if n % 3 = 1 then [61, 61] else if n % 3 = 2 then [61] else []

/-- Model of base64.b64encode on a byte string. -/
def b64Encode (bs : List Nat) : List Nat :=
  (bytesToSextets bs).map b64Char ++ b64PadFor bs.length

/-- Base64 sextets back to bytes (padding already stripped). -/
def sextetsToBytes : List Nat → List Nat
  | a :: b :: c :: d :: rest =>
      (a * 4 + b / 16) :: (b % 16 * 16 + c / 4) :: (c % 4 * 64 + d) ::
        sextetsToBytes rest
  | [a, b, c] => [a * 4 + b / 16, b % 16 * 16 + c / 4]
  | [a, b] => [a * 4 + b / 16]
  | _ => []

/-- Model of base64.b64decode (non-strict mode, as called by the code):
none models a raised binascii.Error. -/
def b64Decode (s : List Nat) : Option (List Nat) :=
  let valid := s.filter (fun c => (b64Val c).isSome || c == 61)
  if valid.length % 4 ≠ 0 then none
  else
    let data := valid.filter (fun c => (b64Val c).isSome)
    if data.length % 4 = 1 then none
    else some (sextetsToBytes (data.filterMap b64Val))

theorem b64Val_b64Char : ∀ n, n < 64 → b64Val (b64Char n) = some n := by
  decide

theorem b64Val_pad : b64Val 61 = none := by decide

theorem bytesToSextets_lt :
    ∀ bs : List Nat, (∀ b ∈ bs, b < 256) → ∀ s ∈ bytesToSextets bs, s < 64 := by
  intro bs
  induction bs using bytesToSextets.induct with
  | case1 a b c rest ih =>
    intro hb s hs
    simp only [bytesToSextets, List.mem_cons] at hs
    have ha : a < 256 := hb a (by simp)
    have hbb : b < 256 := hb b (by simp)
    have hc : c < 256 := hb c (by simp)
    rcases hs with h | h | h | h | h
    · omega
    · omega
    · omega
    · omega
    · exact ih (fun x hx => hb x (by simp [hx])) s h
  | case2 a b =>
    intro hb s hs
    have ha : a < 256 := hb a (by simp)
    have hbb : b < 256 := hb b (by simp)
    simp only [bytesToSextets, List.mem_cons] at hs
    rcases hs with h | h | h | h <;> first | omega | simp_all
  | case3 a =>
    intro hb s hs
    have ha : a < 256 := hb a (by simp)
    simp only [bytesToSextets, List.mem_cons] at hs
    rcases hs with h | h | h <;> first | omega | simp_all
  | case4 => intro _ s hs; simp [bytesToSextets] at hs

theorem bytesToSextets_length :
    ∀ bs : List Nat,
      (bytesToSextets bs).length = bs.length + (bs.length + 2) / 3 := by
  intro bs
  induction bs using bytesToSextets.induct with
  | case1 a b c rest ih =>
    simp only [bytesToSextets, List.length_cons] at *
    omega
  | case2 a b => simp [bytesToSextets]
  | case3 a => simp [bytesToSextets]
  | case4 => simp [bytesToSextets]

theorem b64PadFor_length (n : Nat) : (b64PadFor n).length = (3 - n % 3) % 3 := by
  simp only [b64PadFor]
  split
  · simp; omega
  · split <;> simp <;> omega

theorem sextetsToBytes_bytesToSextets :
    ∀ bs : List Nat, (∀ b ∈ bs, b < 256) →
      sextetsToBytes (bytesToSextets bs) = bs := by
  intro bs
  induction bs using bytesToSextets.induct with
  | case1 a b c rest ih =>
    intro hb
    have ha : a < 256 := hb a (by simp)
    have hbb : b < 256 := hb b (by simp)
    have hc : c < 256 := hb c (by simp)
    simp only [bytesToSextets, sextetsToBytes, List.cons.injEq]
    refine ⟨by omega, by omega, by omega, ih (fun x hx => hb x (by simp [hx]))⟩
  | case2 a b =>
    intro hb
    have ha : a < 256 := hb a (by simp)
    have hbb : b < 256 := hb b (by simp)
    simp only [bytesToSextets, sextetsToBytes, List.cons.injEq]
    refine ⟨by omega, by omega, trivial⟩
  | case3 a =>
    intro hb
    have ha : a < 256 := hb a (by simp)
    simp only [bytesToSextets, sextetsToBytes, List.cons.injEq]
    refine ⟨by omega, trivial⟩
  | case4 => intro _; simp [bytesToSextets, sextetsToBytes]

theorem b64Decode_b64Encode (bs : List Nat) (hb : ∀ b ∈ bs, b < 256) :
    b64Decode (b64Encode bs) = some bs := by
  have hsex := bytesToSextets_lt bs hb
  have hvalid :
      (b64Encode bs).filter (fun c => (b64Val c).isSome || c == 61) =
        b64Encode bs := by
    rw [List.filter_eq_self]
    intro c hc
    simp only [b64Encode, List.mem_append, List.mem_map] at hc
    rcases hc with ⟨s, hs, rfl⟩ | hc
    · simp [b64Val_b64Char s (hsex s hs)]
    · have : c = 61 := by
        simp only [b64PadFor] at hc
        split at hc <;> simp_all
      simp [this]
  have hdata :
      (b64Encode bs).filter (fun c => (b64Val c).isSome) =
        (bytesToSextets bs).map b64Char := by
    simp only [b64Encode, List.filter_append]
    have h1 : ((bytesToSextets bs).map b64Char).filter
        (fun c => (b64Val c).isSome) = (bytesToSextets bs).map b64Char := by
      rw [List.filter_eq_self]
      intro c hc
      simp only [List.mem_map] at hc
      obtain ⟨s, hs, rfl⟩ := hc
      simp [b64Val_b64Char s (hsex s hs)]
    have h2 : (b64PadFor bs.length).filter (fun c => (b64Val c).isSome) = [] := by
      simp only [b64PadFor]
      split
      · simp [b64Val_pad]
      · split <;> simp [b64Val_pad]
    rw [h1, h2, List.append_nil]
  have hslen := bytesToSextets_length bs
  have hplen := b64PadFor_length bs.length
  have hmap :
      ((bytesToSextets bs).map b64Char).filterMap b64Val = bytesToSextets bs := by
    rw [List.filterMap_map]
    have : ∀ l : List Nat, (∀ s ∈ l, s < 64) →
        l.filterMap (fun s => b64Val (b64Char s)) = l := by
      intro l
      induction l with
      | nil => intro _; rfl
      | cons x xs ih =>
        intro h
        rw [List.filterMap_cons]
        rw [b64Val_b64Char x (h x (by simp))]
        rw [ih (fun s hs => h s (by simp [hs]))]
    exact this _ hsex
  simp only [b64Decode, hvalid, hdata, hmap]
  have hElen : (b64Encode bs).length % 4 = 0 := by
    simp only [b64Encode, List.length_append, List.length_map]
    omega
  rw [if_neg (by omega)]
  rw [if_neg (by rw [List.length_map]; omega)]
  rw [sextetsToBytes_bytesToSextets bs hb]

/-! ### AEAD cipher (model of the external cryptography AESGCM primitive)

The repository calls the external cryptography library for AES-256-GCM;
only its interface contract is modelled: sealing appends a 16-byte
authentication tag depending on key, nonce and plaintext, and opening
recovers the plaintext exactly when the tag verifies (`none` models a
raised InvalidTag, i.e. tag mismatch or wrong key). -/

def tagMix (acc b : Nat) : Nat := (acc * 131 + b + 17) % 65536

/-- The 16-byte authentication tag of the modelled AEAD. -/
def gcmTag (key nonce pt : List Nat) : List Nat :=
  (List.range 16).map
    (fun i => ((key ++ nonce ++ pt).foldl tagMix 9 + i * 37) % 256)

def aesgcmEncrypt (key nonce pt : List Nat) : List Nat :=
  pt ++ gcmTag key nonce pt

def aesgcmDecrypt (key nonce ct : List Nat) : Option (List Nat) :=
  if ct.length < 16 then none
  else
    let pt := ct.take (ct.length - 16)
    if ct.drop (ct.length - 16) = gcmTag key nonce pt then some pt else none

theorem gcmTag_length (key nonce pt : List Nat) :
    (gcmTag key nonce pt).length = 16 := by
  simp [gcmTag]

theorem gcmTag_lt (key nonce pt : List Nat) :
    ∀ b ∈ gcmTag key nonce pt, b < 256 := by
  intro b hb
  simp only [gcmTag, List.mem_map] at hb
  obtain ⟨i, _, rfl⟩ := hb
  exact Nat.mod_lt _ (by omega)

theorem aesgcmDecrypt_aesgcmEncrypt (key nonce pt : List Nat) :
    aesgcmDecrypt key nonce (aesgcmEncrypt key nonce pt) = some pt := by
  have hlen : (aesgcmEncrypt key nonce pt).length = pt.length + 16 := by
    simp [aesgcmEncrypt, gcmTag_length]
  simp only [aesgcmDecrypt, hlen]
  rw [if_neg (by omega)]
  have h1 : pt.length + 16 - 16 = pt.length := by omega
  simp only [h1, aesgcmEncrypt]
  rw [List.take_left, List.drop_left]
  rw [if_pos rfl]

/-! ### UTF-8 (model of Python str.encode and bytes.decode)

Python strings are lists of Unicode code points; encoding is total on
them, decoding is Python's strict UTF-8 decode, with `none` modelling a
raised UnicodeDecodeError. -/

def utf8EncodeChar (c : Nat) : List Nat :=
  if c < 128 then [c]
  else if c < 2048 then [192 + c / 64, 128 + c % 64]
  else if c < 65536 then [224 + c / 4096, 128 + c / 64 % 64, 128 + c % 64]
  else [240 + c / 262144, 128 + c / 4096 % 64, 128 + c / 64 % 64, 128 + c % 64]

/-- Model of str.encode (UTF-8). -/
def strEncode (s : List Nat) : List Nat := s.flatMap utf8EncodeChar

def isContByte (b : Nat) : Bool := 128 ≤ b && b < 192

/-- One step of strict UTF-8 decoding: from a lead byte and the bytes
after it, the decoded code point and the remaining bytes, or none on a
malformed, overlong, surrogate or out-of-range sequence. -/
def utf8Step (b : Nat) (rest : List Nat) : Option (Nat × List Nat) :=
  if b < 128 then some (b, rest)
  else if b < 194 then none
  else if b < 224 then
    match rest with
    | b1 :: rest2 =>
      if isContByte b1 then some ((b - 192) * 64 + (b1 - 128), rest2) else none
    | [] => none
  else if b < 240 then
    match rest with
    | b1 :: b2 :: rest3 =>
      if isContByte b1 && isContByte b2 then
        let c := (b - 224) * 4096 + (b1 - 128) * 64 + (b2 - 128)
        if 2048 ≤ c ∧ ¬(55296 ≤ c ∧ c < 57344) then some (c, rest3) else none
      else none
    | _ => none
  else if b < 245 then
    match rest with
    | b1 :: b2 :: b3 :: rest4 =>
      if isContByte b1 && isContByte b2 && isContByte b3 then
        let c := (b - 240) * 262144 + (b1 - 128) * 4096 +
          (b2 - 128) * 64 + (b3 - 128)
        if 65536 ≤ c ∧ c < 1114112 then some (c, rest4) else none
      else none
    | _ => none
  else none

/-- Strict UTF-8 decoding with explicit fuel; every step consumes at
least one byte, so fuel equal to the byte length never runs out. -/
def utf8DecodeAux : Nat → List Nat → Option (List Nat)
  | _, [] => some []
  | 0, _ :: _ => none
  | fuel + 1, b :: rest =>
    match utf8Step b rest with
    | none => none
    | some (c, rest2) => (utf8DecodeAux fuel rest2).map (fun t => c :: t)

/-- Model of bytes.decode (strict UTF-8). -/
def utf8Decode (l : List Nat) : Option (List Nat) :=
  utf8DecodeAux l.length l

theorem strEncode_ascii (s : List Nat) (h : ∀ c ∈ s, c < 128) :
    strEncode s = s := by
  induction s with
  | nil => rfl
  | cons c cs ih =>
    have hc : c < 128 := h c (by simp)
    simp only [strEncode, List.flatMap_cons] at *
    rw [utf8EncodeChar, if_pos hc, ih (fun x hx => h x (by simp [hx]))]
    rfl

theorem utf8DecodeAux_ascii :
    ∀ (fuel : Nat) (s : List Nat), s.length ≤ fuel → (∀ c ∈ s, c < 128) →
      utf8DecodeAux fuel s = some s := by
  intro fuel
  induction fuel with
  | zero =>
    intro s hlen _
    match s with
    | [] => rfl
    | c :: cs => simp at hlen
  | succ n ih =>
    intro s hlen h
    match s with
    | [] => rfl
    | c :: cs =>
      have hc : c < 128 := h c (by simp)
      rw [utf8DecodeAux, utf8Step.eq_def, if_pos hc]
      show (utf8DecodeAux n cs).map (fun t => c :: t) = some (c :: cs)
      rw [ih cs (by simp at hlen; omega) (fun x hx => h x (by simp [hx]))]
      rfl

theorem utf8Decode_ascii (s : List Nat) (h : ∀ c ∈ s, c < 128) :
    utf8Decode s = some s :=
  utf8DecodeAux_ascii s.length s le_rfl h

/-! ### EncryptionService (src/api/app/services/encryption.py)

The key is the SHA-256 digest of the shared secret computed by the
external hashlib; it enters the model as an arbitrary byte list. The
nonce drawn from os.urandom enters encrypt_credentials as an explicit
argument. Python exceptions are explicit values. -/

/-- EncryptionService.NONCE_SIZE. -/
def NONCE_SIZE : Nat := 12

/-- Python exception values arising inside decrypt_credentials:
binascii.Error from base64.b64decode, InvalidTag from AESGCM.decrypt,
UnicodeDecodeError from bytes.decode, and EncryptionError itself
(identified by its message). -/
inductive PyExc where
  | binasciiError
  | invalidTag
  | unicodeDecodeError
  | encryptionError (msg : String)
deriving DecidableEq

def pyExcText : PyExc → String
  | .binasciiError => "binascii.Error"
  | .invalidTag => "InvalidTag"
  | .unicodeDecodeError => "UnicodeDecodeError"
  | .encryptionError m => m

def msgTooShort : String := "Invalid encrypted data: too short"

def msgMissingSep : String := "Invalid credential format: missing separator"

def msgInvalidB64 : String := "Invalid base64 encoding"

def msgDecryptionFailed (e : PyExc) : String :=
  "Decryption failed: " ++ pyExcText e

/-- encrypt_credentials: plaintext is username:pin encoded as UTF-8
(58 is the code point of the colon), sealed with AESGCM under a fresh
random nonce, and the envelope is base64 of nonce plus ciphertext. -/
def encrypt_credentials (key nonce username pin : List Nat) : List Nat :=
  b64Encode (nonce ++ aesgcmEncrypt key nonce (strEncode (username ++ 58 :: pin)))

/-- The try-block of decrypt_credentials, raising Python exceptions as
Except errors: base64-decode, length check against NONCE_SIZE + 1,
nonce/ciphertext split, AEAD open, UTF-8 decode, split on the first
colon (Python split with maxsplit 1). -/
def decryptBody (key encrypted_data : List Nat) :
    Except PyExc (List Nat × List Nat) :=
  match b64Decode encrypted_data with
  | none => .error .binasciiError
  | some raw =>
    if raw.length < NONCE_SIZE + 1 then .error (.encryptionError msgTooShort)
    else
      let nonce := raw.take NONCE_SIZE
      let ciphertext := raw.drop NONCE_SIZE
      match aesgcmDecrypt key nonce ciphertext with
      | none => .error .invalidTag
      | some plaintext =>
        match utf8Decode plaintext with
        | none => .error .unicodeDecodeError
        | some decoded =>
          if 58 ∈ decoded then
            .ok (decoded.takeWhile (fun c => c ≠ 58),
              (decoded.dropWhile (fun c => c ≠ 58)).tail)
          else .error (.encryptionError msgMissingSep)

/-- decrypt_credentials: the try-block wrapped by its except clauses.
A binascii.Error becomes EncryptionError (invalid base64 encoding); an
EncryptionError is re-raised unchanged; every other exception is
wrapped as EncryptionError (decryption failed). -/
def decrypt_credentials (key encrypted_data : List Nat) :
    Except PyExc (List Nat × List Nat) :=
  match decryptBody key encrypted_data with
  | .ok r => .ok r
  | .error .binasciiError => .error (.encryptionError msgInvalidB64)
  | .error (.encryptionError m) => .error (.encryptionError m)
  | .error e => .error (.encryptionError (msgDecryptionFailed e))

/-- Printable ASCII code point (space through tilde). -/
def Printable (c : Nat) : Prop := 32 ≤ c ∧ c ≤ 126

instance decPrintable (c : Nat) : Decidable (Printable c) := by
  unfold Printable; exact instDecidableAnd

theorem takeWhile_colon (u p : List Nat) (h : 58 ∉ u) :
    (u ++ 58 :: p).takeWhile (fun c => c ≠ 58) = u := by
  induction u with
  | nil => simp
  | cons a us ih =>
    simp only [List.mem_cons, not_or] at h
    obtain ⟨h1, h2⟩ := h
    simp only [List.cons_append, List.takeWhile_cons]
    have ha : (58 : Nat) ≠ a := h1
    rw [if_pos (by simp; omega), ih h2]

theorem dropWhile_colon (u p : List Nat) (h : 58 ∉ u) :
    (u ++ 58 :: p).dropWhile (fun c => c ≠ 58) = 58 :: p := by
  induction u with
  | nil => simp
  | cons a us ih =>
    simp only [List.mem_cons, not_or] at h
    obtain ⟨h1, h2⟩ := h
    simp only [List.cons_append, List.dropWhile_cons]
    rw [if_pos (by simp; omega), ih h2]

/-- Core roundtrip for ASCII credentials whose username has no colon. -/
theorem decrypt_encrypt_ascii
    (key nonce u p : List Nat)
    (hn : nonce.length = NONCE_SIZE) (hnb : ∀ b ∈ nonce, b < 256)
    (hu : ∀ c ∈ u, c < 128) (hp : ∀ c ∈ p, c < 128) (hcolon : 58 ∉ u) :
    decrypt_credentials key (encrypt_credentials key nonce u p) =
      Except.ok (u, p) := by
  have hpt : ∀ c ∈ u ++ 58 :: p, c < 128 := by
    intro c hc
    rcases List.mem_append.mp hc with h | h
    · exact hu c h
    · rcases List.mem_cons.mp h with rfl | h
      · omega
      · exact hp c h
  have henc : strEncode (u ++ 58 :: p) = u ++ 58 :: p := strEncode_ascii _ hpt
  have hraw : ∀ b ∈ nonce ++ aesgcmEncrypt key nonce (u ++ 58 :: p), b < 256 := by
    intro b hb
    rcases List.mem_append.mp hb with h | h
    · exact hnb b h
    · rcases List.mem_append.mp h with h2 | h2
      · have := hpt b h2; omega
      · exact gcmTag_lt key nonce _ b h2
  have hdec := b64Decode_b64Encode _ hraw
  have hlen : (nonce ++ aesgcmEncrypt key nonce (u ++ 58 :: p)).length =
      NONCE_SIZE + ((u ++ 58 :: p).length + 16) := by
    simp only [List.length_append, aesgcmEncrypt, gcmTag_length,
      List.length_cons, hn]
  have htake : (nonce ++ aesgcmEncrypt key nonce (u ++ 58 :: p)).take NONCE_SIZE
      = nonce := List.take_left' hn
  have hdrop : (nonce ++ aesgcmEncrypt key nonce (u ++ 58 :: p)).drop NONCE_SIZE
      = aesgcmEncrypt key nonce (u ++ 58 :: p) := List.drop_left' hn
  have hopen := aesgcmDecrypt_aesgcmEncrypt key nonce (u ++ 58 :: p)
  have hutf := utf8Decode_ascii _ hpt
  have hmem : (58 : Nat) ∈ u ++ 58 :: p := by simp
  simp only [encrypt_credentials, decrypt_credentials, decryptBody, henc, hdec,
    hlen, htake, hdrop, hopen, hutf]
  rw [if_neg (by omega)]
  rw [if_pos hmem]
  rw [takeWhile_colon u p hcolon, dropWhile_colon u p hcolon]
  rfl

/-- C1 falls on a printable username containing a colon: the plaintext
is split at its FIRST colon, so the colon migrates from the username
into the pin. Concrete input: username "a:b", pin "c", key from any
secret (the empty byte key here), a 12-byte nonce. -/
theorem C1_counterexample :
    (∀ c ∈ ([97, 58, 98] : List Nat), Printable c) ∧
    (∀ c ∈ ([99] : List Nat), Printable c) ∧
    ¬ decrypt_credentials [] (encrypt_credentials [] (List.replicate 12 0)
        [97, 58, 98] [99]) = Except.ok ([97, 58, 98], [99]) := by
  refine ⟨by decide, by decide, ?_⟩
  have hval : decrypt_credentials [] (encrypt_credentials []
      (List.replicate 12 0) [97, 58, 98] [99]) =
      Except.ok ([97], [98, 58, 99]) := by rfl
  rw [hval]
  simp

/-- C1 amended: for every printable username u WITHOUT a colon and
every printable pin p, decrypting the envelope encrypting (u, p) under
any key and any 12-byte nonce returns exactly (u, p). -/
theorem C1_roundtrip
    (key nonce u p : List Nat)
    (hn : nonce.length = NONCE_SIZE) (hnb : ∀ b ∈ nonce, b < 256)
    (hu : ∀ c ∈ u, Printable c) (hp : ∀ c ∈ p, Printable c)
    (hcolon : 58 ∉ u) :
    decrypt_credentials key (encrypt_credentials key nonce u p) =
      Except.ok (u, p) :=
  decrypt_encrypt_ascii key nonce u p hn hnb
    (fun c hc => by have := hu c hc; unfold Printable at this; omega)
    (fun c hc => by have := hp c hc; unfold Printable at this; omega)
    hcolon

/-- Witness for C1_roundtrip at username "a", pin "12". -/
theorem C1_roundtrip_witness :
    decrypt_credentials [] (encrypt_credentials [] (List.replicate 12 0)
      [97] [49, 50]) = Except.ok ([97], [49, 50]) :=
  C1_roundtrip [] (List.replicate 12 0) [97] [49, 50]
    (by decide) (by decide) (by decide) (by decide) (by decide)

/-- C5: the four failure modes of decrypt_credentials, each surfacing
as EncryptionError with the corresponding categorical message: invalid
base64 (InvalidEncoding), decoded data shorter than NONCE_SIZE + 1
(Truncated), AEAD open failure (AuthenticationFailed, raised by the
external library as InvalidTag and wrapped), and a recovered plaintext
with no colon separator (MalformedPayload). -/
theorem C5_failure_modes (key : List Nat) :
    (∀ s, b64Decode s = none →
      decrypt_credentials key s = .error (.encryptionError msgInvalidB64)) ∧
    (∀ s raw, b64Decode s = some raw → raw.length < NONCE_SIZE + 1 →
      decrypt_credentials key s = .error (.encryptionError msgTooShort)) ∧
    (∀ s raw, b64Decode s = some raw → ¬ raw.length < NONCE_SIZE + 1 →
      aesgcmDecrypt key (raw.take NONCE_SIZE) (raw.drop NONCE_SIZE) = none →
      decrypt_credentials key s =
        .error (.encryptionError (msgDecryptionFailed .invalidTag))) ∧
    (∀ s raw pt decoded, b64Decode s = some raw →
      ¬ raw.length < NONCE_SIZE + 1 →
      aesgcmDecrypt key (raw.take NONCE_SIZE) (raw.drop NONCE_SIZE) = some pt →
      utf8Decode pt = some decoded → 58 ∉ decoded →
      decrypt_credentials key s =
        .error (.encryptionError msgMissingSep)) := by
  refine ⟨?_, ?_, ?_, ?_⟩
  · intro s h
    simp only [decrypt_credentials, decryptBody, h]
  · intro s raw h hlt
    simp only [decrypt_credentials, decryptBody, h, if_pos hlt]
  · intro s raw h hlt hopen
    simp only [decrypt_credentials, decryptBody, h, if_neg hlt, hopen]
  · intro s raw pt decoded h hlt hopen hutf hns
    simp only [decrypt_credentials, decryptBody, h, if_neg hlt, hopen, hutf,
      if_neg hns]

/-- Witness for C5_failure_modes: each failure mode at a concrete
input. The non-base64 string is "a" alone (one data character), the
truncated envelope encodes five raw bytes, the tampered envelope is 29
zero bytes, the separator-free envelope seals plaintext "a". -/
theorem C5_failure_modes_witness :
    decrypt_credentials [] [97] = .error (.encryptionError msgInvalidB64) ∧
    decrypt_credentials [] (b64Encode [104, 105, 106, 107, 108]) =
      .error (.encryptionError msgTooShort) ∧
    decrypt_credentials [] (b64Encode (List.replicate 29 0)) =
      .error (.encryptionError (msgDecryptionFailed .invalidTag)) ∧
    decrypt_credentials [] (b64Encode (List.replicate 12 0 ++
        aesgcmEncrypt [] (List.replicate 12 0) [97])) =
      .error (.encryptionError msgMissingSep) := by
  refine ⟨?_, ?_, ?_, ?_⟩
  · exact (C5_failure_modes []).1 [97] (by rfl)
  · exact (C5_failure_modes []).2.1 _ [104, 105, 106, 107, 108]
      (b64Decode_b64Encode _ (by decide)) (by decide)
  · exact (C5_failure_modes []).2.2.1 _ (List.replicate 29 0)
      (b64Decode_b64Encode _ (by decide)) (by decide) (by rfl)
  · exact (C5_failure_modes []).2.2.2 _
      (List.replicate 12 0 ++ aesgcmEncrypt [] (List.replicate 12 0) [97])
      [97] [97]
      (b64Decode_b64Encode _ (by decide)) (by decide) (by rfl) (by rfl)
      (by decide)

/-- C10: every outcome of decrypt_credentials is either a success or
an EncryptionError; no other exception kind escapes the except
clauses. -/
theorem C10_only_encryption_error (key s : List Nat) :
    (∃ r, decrypt_credentials key s = .ok r) ∨
    (∃ m, decrypt_credentials key s = .error (.encryptionError m)) := by
  cases h : decryptBody key s with
  | ok r => exact .inl ⟨r, by simp only [decrypt_credentials, h]⟩
  | error e =>
    right
    cases e with
    | binasciiError => exact ⟨msgInvalidB64, by simp only [decrypt_credentials, h]⟩
    | invalidTag =>
      exact ⟨msgDecryptionFailed .invalidTag, by simp only [decrypt_credentials, h]⟩
    | unicodeDecodeError =>
      exact ⟨msgDecryptionFailed .unicodeDecodeError,
        by simp only [decrypt_credentials, h]⟩
    | encryptionError m => exact ⟨m, by simp only [decrypt_credentials, h]⟩

/-! ### ScrapeParser (src/api/app/utils/html_parser.py)

BeautifulSoup is an external library; a parsed document enters the
model as structured rows recording exactly what parse_availability
queries of each tr element: its classes, the text of its first th
element (none when absent), presence of an a.inlineBooking element,
the number of span.player-name elements, presence of a div.comp-item
element, and the input elements under td.slot-actions form with their
name and value attributes. soup.select on the two classes yields the
rows having either class, in document order. -/

structure FormInput where
  name : Option String
  value : Option String
deriving DecidableEq

structure Row where
  classes : List String
  th : Option String
  inlineBooking : Bool
  playerNameCount : Nat
  compItem : Bool
  slotActionInputs : List FormInput
deriving DecidableEq

structure TimeSlot where
  time : String
  can_book : Bool
  booking_form : List (String × String)
deriving DecidableEq

/-- Python dict assignment d[k] = v: overwrite in place keeping
insertion order, append when the key is new. -/
def dictInsert (d : List (String × String)) (k v : String) :
    List (String × String) :=
  if d.any (fun e => e.1 == k) then
    d.map (fun e => if e.1 == k then (k, v) else e)
  else d ++ [(k, v)]

/-- Form parameters collected from td.slot-actions form input
elements: an input contributes when its name attribute is present and
truthy and its value attribute (defaulting to the empty string) is
truthy. -/
def rowBookingForm (inputs : List FormInput) : List (String × String) :=
  inputs.foldl (fun d inp =>
    match inp.name with
    | some n =>
      if n ≠ "" ∧ inp.value.getD "" ≠ "" then dictInsert d n (inp.value.getD "")
      else d
    | none => d) []

/-- The row is selected by tr.canreserve, tr.cantreserve. -/
def isCandidate (r : Row) : Bool :=
  r.classes.contains "canreserve" || r.classes.contains "cantreserve"

/-- people_booked of the source: one or more span.player-name. -/
def peopleBooked (r : Row) : Bool := decide (0 < r.playerNameCount)

/-- The source filter: not people_booked and not blocked and
booking_button. -/
def rowAvailable (r : Row) : Bool :=
  !peopleBooked r && !r.compItem && r.inlineBooking

/-- Whitespace characters stripped by Python str.strip. -/
def isPySpace (c : Char) : Bool :=
  c = ' ' || c = '\t' || c = '\n' || c = '\x0d' || c = '\x0b' || c = '\x0c'

/-- Model of Python str.strip (leading and trailing whitespace). -/
def pyStrip (s : String) : String :=
  ⟨((s.toList.dropWhile isPySpace).reverse.dropWhile isPySpace).reverse⟩

/-- The TimeSlot appended for an included row with th text t. -/
def slotOfRow (r : Row) (t : String) : TimeSlot :=
  { time := pyStrip t
    can_book := r.inlineBooking
    booking_form := rowBookingForm r.slotActionInputs }

/-- parse_availability over the modelled rows: iterate the selected
rows in document order, skip rows with no th, and append a TimeSlot
exactly for rows passing the filter. -/
def parse_availability (doc : List Row) : List TimeSlot :=
  doc.filterMap (fun r =>
    if isCandidate r then
      match r.th with
      | none => none
      | some t => if rowAvailable r then some (slotOfRow r t) else none
    else none)

theorem parse_availability_eq (doc : List Row) :
    parse_availability doc =
      (doc.filter (fun r => isCandidate r && r.th.isSome && rowAvailable r)).map
        (fun r => slotOfRow r (r.th.getD "")) := by
  induction doc with
  | nil => rfl
  | cons r rest ih =>
    simp only [parse_availability] at ih ⊢
    rw [List.filterMap_cons, List.filter_cons]
    rcases hth : r.th with _ | t
    · by_cases hc : isCandidate r = true
      · simp [hc, hth, ih]
      · simp [hc, hth, ih]
    · by_cases hc : isCandidate r = true
      · by_cases ha : rowAvailable r = true
        · simp [hc, hth, ha, ih]
        · simp [hc, hth, ha, ih]
      · simp [hc, hth, ih]

theorem rowAvailable_eq (r : Row) :
    rowAvailable r = (r.inlineBooking && r.playerNameCount == 0 && !r.compItem) := by
  by_cases hn : r.playerNameCount = 0
  · have h1 : peopleBooked r = false := by simp [peopleBooked, hn]
    have h2 : (r.playerNameCount == 0) = true := by simp [hn]
    simp only [rowAvailable, h1, h2, Bool.not_false, Bool.true_and, Bool.and_true]
    cases r.inlineBooking <;> cases r.compItem <;> rfl
  · have h1 : peopleBooked r = true := by
      simp [peopleBooked, Nat.pos_of_ne_zero hn]
    have h2 : (r.playerNameCount == 0) = false := by simp [hn]
    simp [rowAvailable, h1, h2]

/-- C2: a candidate row (either reservable markup class) contributes a
TimeSlot exactly when it has a time header, a booking-action element,
zero player-name elements and no competition marker, and the results
keep document order: parse_availability is the in-order image of the
filtered candidate rows. -/
theorem C2_inclusion_law (doc : List Row) :
    parse_availability doc =
      (doc.filter (fun r => isCandidate r && r.th.isSome &&
          (r.inlineBooking && r.playerNameCount == 0 && !r.compItem))).map
        (fun r => slotOfRow r (r.th.getD "")) := by
  have h := parse_availability_eq doc
  simp only [rowAvailable_eq] at h
  exact h

/-- A reservable row with a booking action, no occupants, no
competition marker and no usable form inputs. -/
def emptyFormRow : Row :=
  { classes := ["canreserve"], th := some "09:00", inlineBooking := true,
    playerNameCount := 0, compItem := false, slotActionInputs := [] }

/-- The TimeSlot parse_availability produces for emptyFormRow. -/
def emptyFormSlot : TimeSlot :=
  { time := "09:00", can_book := true, booking_form := [] }

/-- C7 as stated is false: a row with a booking action, no occupants
and no competition marker but no usable form inputs yields a TimeSlot
with can_book true and an EMPTY booking form. -/
theorem C7_counterexample :
    ∃ slot ∈ parse_availability [emptyFormRow],
      slot.can_book = true ∧ slot.booking_form = [] := by
  have h : parse_availability [emptyFormRow] = [emptyFormSlot] := by rfl
  refine ⟨emptyFormSlot, ?_, rfl, rfl⟩
  rw [h]
  exact List.mem_singleton.mpr rfl

/-- C7 amended: every returned TimeSlot has can_book true and stems
from a candidate row that satisfied the availability predicate, with
booking_form the form parameters of that row; a non-empty booking form
is NOT guaranteed. -/
theorem C7_amended (doc : List Row) (slot : TimeSlot)
    (h : slot ∈ parse_availability doc) :
    slot.can_book = true ∧
    ∃ r ∈ doc, isCandidate r = true ∧ rowAvailable r = true ∧
      r.th.isSome = true ∧
      slot.booking_form = rowBookingForm r.slotActionInputs := by
  rw [parse_availability_eq doc] at h
  obtain ⟨r, hr, rfl⟩ := List.mem_map.mp h
  have hf := List.mem_filter.mp hr
  obtain ⟨hd, hcond⟩ := hf
  simp only [Bool.and_eq_true] at hcond
  obtain ⟨⟨hc, hth⟩, ha⟩ := hcond
  constructor
  · have : r.inlineBooking = true := by
      have := ha
      simp only [rowAvailable, Bool.and_eq_true] at this
      exact this.2
    simpa [slotOfRow] using this
  · exact ⟨r, hd, hc, ha, hth, rfl⟩

/-- Witness for C7_amended at a one-row document. -/
theorem C7_amended_witness :
    emptyFormSlot.can_book = true ∧
    ∃ r ∈ [emptyFormRow], isCandidate r = true ∧
      rowAvailable r = true ∧ r.th.isSome = true ∧
      emptyFormSlot.booking_form = rowBookingForm r.slotActionInputs :=
  C7_amended [emptyFormRow] emptyFormSlot
    (by rw [show parse_availability [emptyFormRow] = [emptyFormSlot] from rfl]
        exact List.mem_singleton.mpr rfl)


/-! ### extract_booking_id (src/api/app/utils/html_parser.py)

The function is re.search over the pattern: a question mark or
ampersand, the literal edit=, then a captured group of one or more
characters other than an ampersand; the result is the capture of the
leftmost position where the whole pattern matches. -/

/-- The regex matches at the head of l: first character is a question
mark or ampersand, the next five are the edit= literal, and the greedy
capture of characters other than ampersand is non-empty. -/
def editMatchHere (l : List Char) : Option (List Char) :=
  match l with
  | c :: rest =>
    if (c = '?' ∨ c = '&') ∧ rest.take 5 = ['e', 'd', 'i', 't', '='] then
      if (rest.drop 5).takeWhile (fun ch => ch ≠ '&') = [] then none
      else some ((rest.drop 5).takeWhile (fun ch => ch ≠ '&'))
    else none
  | [] => none

/-- re.search: scan left to right for the first matching position. -/
def searchEdit : List Char → Option (List Char)
  | [] => none
  | c :: rest =>
    match editMatchHere (c :: rest) with
    | some cap => some cap
    | none => searchEdit rest

/-- extract_booking_id: the captured group of the leftmost regex
match, none when the pattern does not match anywhere. -/
def extract_booking_id (url : String) : Option String :=
  (searchEdit url.toList).map (fun l => String.mk l)

/-- Spec-side reading of a match at position i of l: the character at
i is a question mark or ampersand, the five characters after it are
edit=, and at least one character other than an ampersand follows. -/
def SpecMatchAt (l : List Char) (i : Nat) : Prop :=
  ((l.drop i).head? = some '?' ∨ (l.drop i).head? = some '&') ∧
  (l.drop (i + 1)).take 5 = ['e', 'd', 'i', 't', '='] ∧
  (l.drop (i + 6)).takeWhile (fun ch => ch ≠ '&') ≠ []

/-- The capture of a match at position i: the maximal run of
characters other than an ampersand after the edit= literal. -/
def specCaptureAt (l : List Char) (i : Nat) : List Char :=
  (l.drop (i + 6)).takeWhile (fun ch => ch ≠ '&')

instance decSpecMatchAt (l : List Char) (i : Nat) : Decidable (SpecMatchAt l i) := by
  unfold SpecMatchAt; infer_instance

theorem editMatchHere_of_spec (l : List Char) (h : SpecMatchAt l 0) :
    editMatchHere l = some (specCaptureAt l 0) := by
  obtain ⟨h1, h2, h3⟩ := h
  match l with
  | [] => simp at h1
  | c :: rest =>
    have hc : c = '?' ∨ c = '&' := by
      rcases h1 with h | h
      · exact Or.inl (Option.some.inj h)
      · exact Or.inr (Option.some.inj h)
    have h2' : rest.take 5 = ['e', 'd', 'i', 't', '='] := h2
    have h3' : ¬ (rest.drop 5).takeWhile (fun ch => ch ≠ '&') = [] := h3
    rw [editMatchHere, if_pos ⟨hc, h2'⟩, if_neg h3']
    rfl

theorem spec_of_editMatchHere (l : List Char) (cap : List Char)
    (h : editMatchHere l = some cap) :
    SpecMatchAt l 0 ∧ cap = specCaptureAt l 0 := by
  match l with
  | [] => simp [editMatchHere] at h
  | c :: rest =>
    rw [editMatchHere] at h
    by_cases hc : (c = '?' ∨ c = '&') ∧ rest.take 5 = ['e', 'd', 'i', 't', '=']
    · rw [if_pos hc] at h
      by_cases hcap : (rest.drop 5).takeWhile (fun ch => ch ≠ '&') = []
      · rw [if_pos hcap] at h
        exact absurd h (by simp)
      · rw [if_neg hcap] at h
        refine ⟨⟨?_, ?_, ?_⟩, ?_⟩
        · rcases hc.1 with h' | h'
          · exact Or.inl (by rw [h']; rfl)
          · exact Or.inr (by rw [h']; rfl)
        · exact hc.2
        · exact hcap
        · exact (Option.some.inj h).symm
    · rw [if_neg hc] at h
      exact absurd h (by simp)

theorem specMatchAt_cons (c : Char) (rest : List Char) (i : Nat) :
    SpecMatchAt (c :: rest) (i + 1) ↔ SpecMatchAt rest i := by
  unfold SpecMatchAt
  have h1 : (c :: rest).drop (i + 1) = rest.drop i := List.drop_succ_cons
  have h2 : (c :: rest).drop (i + 1 + 1) = rest.drop (i + 1) := List.drop_succ_cons
  have h3 : (c :: rest).drop (i + 1 + 6) = rest.drop (i + 6) := by
    have he : i + 1 + 6 = (i + 6) + 1 := by omega
    rw [he]
    exact List.drop_succ_cons
  rw [h1, h2, h3]

theorem specCaptureAt_cons (c : Char) (rest : List Char) (i : Nat) :
    specCaptureAt (c :: rest) (i + 1) = specCaptureAt rest i := by
  unfold specCaptureAt
  have h3 : (c :: rest).drop (i + 1 + 6) = rest.drop (i + 6) := by
    have he : i + 1 + 6 = (i + 6) + 1 := by omega
    rw [he]
    exact List.drop_succ_cons
  rw [h3]

theorem searchEdit_some :
    ∀ l cap, searchEdit l = some cap →
      ∃ i, SpecMatchAt l i ∧ (∀ j, j < i → ¬ SpecMatchAt l j) ∧
        cap = specCaptureAt l i := by
  intro l
  induction l with
  | nil => intro cap h; simp [searchEdit] at h
  | cons c rest ih =>
    intro cap h
    rw [searchEdit] at h
    cases he : editMatchHere (c :: rest) with
    | some cap0 =>
      simp only [he, Option.some.injEq] at h
      obtain ⟨hspec, hcap⟩ := spec_of_editMatchHere _ _ he
      exact ⟨0, hspec, fun j hj => absurd hj (by omega), by rw [← h, hcap]⟩
    | none =>
      simp only [he] at h
      obtain ⟨i, hi, hmin, hcap⟩ := ih cap h
      refine ⟨i + 1, (specMatchAt_cons c rest i).mpr hi, ?_, ?_⟩
      · intro j hj
        match j with
        | 0 =>
          intro hs
          rw [editMatchHere_of_spec _ hs] at he
          exact absurd he (by simp)
        | j + 1 =>
          intro hs
          exact hmin j (by omega) ((specMatchAt_cons c rest j).mp hs)
      · rw [hcap, specCaptureAt_cons]

theorem searchEdit_none :
    ∀ l, searchEdit l = none → ∀ i, ¬ SpecMatchAt l i := by
  intro l
  induction l with
  | nil =>
    intro _ i hs
    obtain ⟨h1, _, _⟩ := hs
    simp at h1
  | cons c rest ih =>
    intro h i
    rw [searchEdit] at h
    cases he : editMatchHere (c :: rest) with
    | some cap0 =>
      simp only [he] at h
      exact absurd h (by simp)
    | none =>
      simp only [he] at h
      match i with
      | 0 =>
        intro hs
        rw [editMatchHere_of_spec _ hs] at he
        exact absurd he (by simp)
      | i + 1 =>
        intro hs
        exact ih h i ((specMatchAt_cons c rest i).mp hs)

/-- C8 as stated is false: this URL contains an occurrence of ?edit=
(at index 10), yet extract_booking_id returns none rather than the
empty substring after it, because the regex capture needs at least one
character other than an ampersand after edit=. -/
theorem C8_counterexample :
    extract_booking_id "https://x/?edit=" = none ∧
    (("https://x/?edit=".toList).drop 10).take 6 = "?edit=".toList := by
  refine ⟨?_, ?_⟩ <;> rfl

/-- C8 amended: extract_booking_id captures at the FIRST position
where ?edit= or &edit= is followed by at least one character other
than an ampersand, the capture running to the next ampersand or the
end of the string; it returns none when no such position exists: an
occurrence immediately followed by an ampersand or the end of string
is skipped, not reported as an empty capture. The two scenarios of
the claim hold. -/
theorem C8_leftmost_match :
    (∀ l cap, searchEdit l = some cap ↔
      ∃ i, SpecMatchAt l i ∧ (∀ j, j < i → ¬ SpecMatchAt l j) ∧
        cap = specCaptureAt l i) ∧
    (∀ l, searchEdit l = none ↔ ∀ i, ¬ SpecMatchAt l i) ∧
    extract_booking_id "https://x/?a=1&edit=BOOK77" = some "BOOK77" ∧
    extract_booking_id "https://x/?a=1" = none := by
  refine ⟨?_, ?_, by rfl, by rfl⟩
  · intro l cap
    constructor
    · exact searchEdit_some l cap
    · rintro ⟨i, hi, hmin, hcap⟩
      cases hs : searchEdit l with
      | none => exact absurd hi (searchEdit_none l hs i)
      | some cap0 =>
        obtain ⟨i0, hi0, hmin0, hcap0⟩ := searchEdit_some l cap0 hs
        have hii : i = i0 := by
          by_contra hne
          rcases Nat.lt_or_ge i i0 with hlt | hge
          · exact hmin0 i hlt hi
          · rcases Nat.lt_or_ge i0 i with hlt2 | hge2
            · exact hmin i0 hlt2 hi0
            · omega
        rw [hcap, hii, ← hcap0]
  · intro l
    constructor
    · exact searchEdit_none l
    · intro hall
      cases hs : searchEdit l with
      | none => rfl
      | some cap0 =>
        obtain ⟨i0, hi0, _, _⟩ := searchEdit_some l cap0 hs
        exact absurd hi0 (hall i0)

/-! ### BookingClient (src/api/app/services/booking_client.py)

httpx is an external library: the HTTP context is modelled as an
optional cookie jar, and each client operation is modelled up to its
first network call. The outcome value records whether the operation
raised a local BookingError, returned locally (dry run), or issued a
network request with the given query parameters, so an error outcome
is by construction raised before any network call. -/

/-- Outcome of book_time_slot up to its first network call. -/
inductive BookStep where
  | error (msg : String)
  | dryRunId (bid : String)
  | network (params : List (String × String))
deriving DecidableEq

/-- book_time_slot: checks can_book, then that num_slots lies between
1 and 4, then returns the fixed sentinel on dry_run, else issues the
GET with the slot's booking form plus numslots. num_slots is a Python
int (default 1). -/
def book_time_slot (time_slot : TimeSlot) (num_slots : Int) (dry_run : Bool) :
    BookStep :=
  if time_slot.can_book = false then .error "Time slot is not bookable"
  else if ¬ (1 ≤ num_slots ∧ num_slots ≤ 4) then
    .error "num_slots must be between 1 and 4"
  else if dry_run then .dryRunId "dryrun-booking-id"
  else .network (dictInsert time_slot.booking_form "numslots" (toString num_slots))

/-- Outcome of add_partner up to its first network call. -/
inductive PartnerStep where
  | error (msg : String)
  | dryRunOk
  | network (params : List (String × String))
deriving DecidableEq

/-- add_partner: checks that slot_num lies between 2 and 4, then
returns True on dry_run, else issues the GET with edit, addpartner and
partnerslot query parameters. -/
def add_partner (booking_id partner_id : String) (slot_num : Int)
    (dry_run : Bool) : PartnerStep :=
  if ¬ (2 ≤ slot_num ∧ slot_num ≤ 4) then
    .error "slot_num must be between 2 and 4"
  else if dry_run then .dryRunOk
  else .network [("edit", booking_id), ("addpartner", partner_id),
    ("partnerslot", toString slot_num)]

/-- A bookable slot with an empty booking form, for concrete runs. -/
def sampleBookableSlot : TimeSlot :=
  { time := "10:00", can_book := true, booking_form := [] }

/-- A non-bookable slot, for concrete runs. -/
def sampleBlockedSlot : TimeSlot :=
  { time := "10:00", can_book := false, booking_form := [] }

/-- C3 as stated is false: with a slot whose can_book is false, a dry
run raises the not-bookable BookingError (still without any network
call) instead of returning the sentinel id, because the can_book check
precedes the dry_run branch. -/
theorem C3_counterexample :
    book_time_slot sampleBlockedSlot 1 true =
      BookStep.error "Time slot is not bookable" ∧
    book_time_slot sampleBlockedSlot 1 true ≠
      BookStep.dryRunId "dryrun-booking-id" := by
  refine ⟨rfl, by decide⟩

/-- C3 amended: a dry-run book_time_slot never issues a network call
for any slot and any num_slots; it returns the fixed sentinel id
whenever the slot is bookable (with the default num_slots of 1), and
raises the local not-bookable validation error when it is not. -/
theorem C3_dry_run (slot : TimeSlot) :
    (∀ n : Int, ∀ p, book_time_slot slot n true ≠ BookStep.network p) ∧
    (slot.can_book = true →
      book_time_slot slot 1 true = BookStep.dryRunId "dryrun-booking-id") ∧
    (slot.can_book = false →
      book_time_slot slot 1 true = BookStep.error "Time slot is not bookable") := by
  refine ⟨?_, ?_, ?_⟩
  · intro n p h
    unfold book_time_slot at h
    by_cases hc : slot.can_book = false
    · rw [if_pos hc] at h
      exact BookStep.noConfusion h
    · rw [if_neg hc] at h
      by_cases hn : ¬ (1 ≤ n ∧ n ≤ 4)
      · rw [if_pos hn] at h
        exact BookStep.noConfusion h
      · rw [if_neg hn, if_pos rfl] at h
        exact BookStep.noConfusion h
  · intro hb
    unfold book_time_slot
    rw [if_neg (by simp [hb]), if_neg (by omega), if_pos rfl]
  · intro hb
    unfold book_time_slot
    rw [if_pos hb]

/-- Witness for C3_dry_run at a bookable slot. -/
theorem C3_dry_run_witness :
    book_time_slot sampleBookableSlot 1 true =
      BookStep.dryRunId "dryrun-booking-id" :=
  (C3_dry_run sampleBookableSlot).2.1 rfl

/-- C4: num_slots 1 through 4 pass validation and the call proceeds
to the dry-run return or to the single network request; 0 and 5 are
rejected with the local BookingError. slot_num 2 through 4 pass, 1
and 5 are rejected. The outcome type records the first network call,
so every error outcome is raised before any network request. -/
theorem C4_boundaries :
    (∀ slot : TimeSlot, ∀ dr : Bool, ∀ n : Int, slot.can_book = true →
      (n = 1 ∨ n = 2 ∨ n = 3 ∨ n = 4) →
      book_time_slot slot n dr =
        if dr then BookStep.dryRunId "dryrun-booking-id"
        else BookStep.network
          (dictInsert slot.booking_form "numslots" (toString n))) ∧
    (∀ slot : TimeSlot, ∀ dr : Bool, ∀ n : Int, slot.can_book = true →
      (n = 0 ∨ n = 5) →
      book_time_slot slot n dr =
        BookStep.error "num_slots must be between 1 and 4") ∧
    (∀ b p : String, ∀ dr : Bool, ∀ n : Int, (n = 2 ∨ n = 3 ∨ n = 4) →
      add_partner b p n dr =
        if dr then PartnerStep.dryRunOk
        else PartnerStep.network [("edit", b), ("addpartner", p),
          ("partnerslot", toString n)]) ∧
    (∀ b p : String, ∀ dr : Bool, ∀ n : Int, (n = 1 ∨ n = 5) →
      add_partner b p n dr =
        PartnerStep.error "slot_num must be between 2 and 4") := by
  refine ⟨?_, ?_, ?_, ?_⟩
  · intro slot dr n hb hn
    unfold book_time_slot
    rw [if_neg (by simp [hb]), if_neg (by omega)]
  · intro slot dr n hb hn
    unfold book_time_slot
    rw [if_neg (by simp [hb]), if_pos (by omega)]
  · intro b p dr n hn
    unfold add_partner
    rw [if_neg (by omega)]
  · intro b p dr n hn
    unfold add_partner
    rw [if_pos (by omega)]

/-- Witness for C4_boundaries: each boundary at a concrete input. -/
theorem C4_boundaries_witness :
    book_time_slot sampleBookableSlot 2 true =
      BookStep.dryRunId "dryrun-booking-id" ∧
    book_time_slot sampleBookableSlot 0 true =
      BookStep.error "num_slots must be between 1 and 4" ∧
    add_partner "BOOK1" "P2" 3 true = PartnerStep.dryRunOk ∧
    add_partner "BOOK1" "P2" 5 true =
      PartnerStep.error "slot_num must be between 2 and 4" :=
  ⟨C4_boundaries.1 sampleBookableSlot true 2 rfl (by omega),
   C4_boundaries.2.1 sampleBookableSlot true 0 rfl (by omega),
   C4_boundaries.2.2.1 "BOOK1" "P2" true 3 (by omega),
   C4_boundaries.2.2.2 "BOOK1" "P2" true 5 (by omega)⟩

/-- Model of the httpx client: the cookie jar, name to value. -/
structure HttpClientState where
  cookies : List (String × String)
deriving DecidableEq

/-- BookingClient state relevant to cookies: the lazily created HTTP
context (none before _ensure_client and after close) and the cookies
passed at construction. -/
structure BookingClientState where
  client : Option HttpClientState
  initial_cookies : List (String × String)
deriving DecidableEq

/-- BookingClient construction: the HTTP context starts out absent;
absent constructor cookies default to the empty dict. -/
def mkBookingClient (cookies : Option (List (String × String))) :
    BookingClientState :=
  { client := none, initial_cookies := cookies.getD [] }

/-- _ensure_client: create the HTTP context with the initial cookies
when none exists. -/
def ensure_client (c : BookingClientState) : BookingClientState :=
  match c.client with
  | some _ => c
  | none => { c with client := some { cookies := c.initial_cookies } }

/-- close: release and drop the HTTP context. -/
def close (c : BookingClientState) : BookingClientState :=
  { c with client := none }

/-- get_cookies: a snapshot dict of the jar when the context exists,
an empty dict otherwise. -/
def get_cookies (c : BookingClientState) : List (String × String) :=
  match c.client with
  | some hc => hc.cookies
  | none => []

/-- C9: get_cookies returns the empty dict without failing on a
freshly constructed client (context never initialized) and after
close; with a live context it returns the jar as a value (the Python
dict() snapshot copy). -/
theorem C9_get_cookies :
    (∀ cookies, get_cookies (mkBookingClient cookies) = []) ∧
    (∀ c, get_cookies (close c) = []) ∧
    (∀ c hc, c.client = some hc → get_cookies c = hc.cookies) := by
  refine ⟨fun _ => rfl, fun _ => rfl, ?_⟩
  intro c hc h
  simp [get_cookies, h]

/-! ### SessionManager (src/api/app/services/session_manager.py)

Redis is an external system; its command contract is modelled as a
store of entries (key, value, absolute expiry deadline) acted on at an
access instant now: SETEX writes a fresh entry with deadline now plus
ttl, GET returns the value of a live entry, EXPIRE resets a live
entry's deadline to now plus ttl, EXISTS reports liveness without
writing, TTL reports the remaining seconds with -2 for an absent or
expired key. A key whose deadline has passed behaves as absent. -/

def KEY_PREFIX : String := "session:"

def DEFAULT_TTL : Nat := 1800

abbrev RedisState := List (String × String × Nat)

def redisFind : RedisState → String → Option (String × Nat)
  | [], _ => none
  | e :: es, k => if e.1 == k then some e.2 else redisFind es k

def redisGet (st : RedisState) (now : Nat) (k : String) : Option String :=
  match redisFind st k with
  | some (v, d) => if now < d then some v else none
  | none => none

def redisSetex (st : RedisState) (now : Nat) (k v : String) (ttl : Nat) :
    RedisState :=
  st.filter (fun e => e.1 != k) ++ [(k, v, now + ttl)]

def redisExpire (st : RedisState) (now : Nat) (k : String) (ttl : Nat) :
    RedisState :=
  if (redisGet st now k).isSome then
    st.map (fun e => if e.1 == k then (e.1, e.2.1, now + ttl) else e)
  else st

def redisExists (st : RedisState) (now : Nat) (k : String) : Bool :=
  (redisGet st now k).isSome

def redisTtl (st : RedisState) (now : Nat) (k : String) : Int :=
  match redisFind st k with
  | some (_, d) => if now < d then (d : Int) - (now : Int) else -2
  | none => -2

/-- SessionManager state: the configured ttl (seconds). -/
structure SessionManager where
  ttl : Nat
deriving DecidableEq

def sessionKey (token : String) : String := KEY_PREFIX ++ token

inductive SessionErr where
  | notFound
deriving DecidableEq

/-- get_session: a GET, then on hit an EXPIRE back to the full
configured ttl (sliding window); on miss it raises
SessionNotFoundError and leaves the store untouched. Returns the
outcome paired with the resulting store. -/
def get_session (m : SessionManager) (st : RedisState) (now : Nat)
    (token : String) : Except SessionErr String × RedisState :=
  match redisGet st now (sessionKey token) with
  | none => (.error .notFound, st)
  | some data => (.ok data, redisExpire st now (sessionKey token) m.ttl)

/-- session_exists: a single EXISTS command; Redis EXISTS is read
only, so the store comes back unchanged. -/
def session_exists (m : SessionManager) (st : RedisState) (now : Nat)
    (token : String) : Bool × RedisState :=
  (redisExists st now (sessionKey token), st)

theorem redisFind_expire_map (st : RedisState) (now : Nat) (k : String)
    (ttl : Nat) (v : String) (d : Nat) (h : redisFind st k = some (v, d)) :
    redisFind (st.map (fun e => if e.1 == k then (e.1, e.2.1, now + ttl) else e))
      k = some (v, now + ttl) := by
  induction st with
  | nil => simp [redisFind] at h
  | cons e es ih =>
    by_cases he : e.1 == k
    · rw [redisFind, if_pos he] at h
      have h2 : e.2 = (v, d) := by simpa using h
      simp [redisFind, he, h2]
    · rw [redisFind, if_neg he] at h
      have := ih h
      simpa [redisFind, he] using this

/-- C6: a successful get_session leaves the record's remaining TTL at
the full configured window measured from the access instant, and
session_exists returns the store unchanged, altering no TTL. -/
theorem C6_sliding_window (m : SessionManager) (st : RedisState) (now : Nat)
    (token : String) (data : String) (st2 : RedisState)
    (hpos : 0 < m.ttl)
    (h : get_session m st now token = (.ok data, st2)) :
    redisTtl st2 now (sessionKey token) = (m.ttl : Int) ∧
    ∀ (st3 : RedisState) (now2 : Nat) (token2 : String),
      (session_exists m st3 now2 token2).2 = st3 := by
  refine ⟨?_, fun _ _ _ => rfl⟩
  rw [get_session] at h
  cases hg : redisGet st now (sessionKey token) with
  | none =>
    simp only [hg] at h
    exact absurd (congrArg Prod.fst h) (by simp)
  | some v =>
    simp only [hg, Prod.mk.injEq, Except.ok.injEq] at h
    obtain ⟨hv, hst2⟩ := h
    cases hf : redisFind st (sessionKey token) with
    | none =>
      rw [redisGet] at hg
      simp only [hf] at hg
      exact absurd hg (by simp)
    | some vd =>
      obtain ⟨v0, d0⟩ := vd
      rw [redisGet] at hg
      simp only [hf] at hg
      by_cases hd : now < d0
      · have hfind :=
          redisFind_expire_map st now (sessionKey token) m.ttl v0 d0 hf
        have hsome : (redisGet st now (sessionKey token)).isSome = true := by
          rw [redisGet]
          simp only [hf]
          rw [if_pos hd]
          rfl
        rw [← hst2, redisExpire, if_pos hsome, redisTtl]
        simp only [hfind]
        rw [if_pos (show now < now + m.ttl by omega)]
        push_cast
        omega
      · rw [if_neg hd] at hg
        exact absurd hg (by simp)

/-- Witness for C6_sliding_window: a store holding one session record
with 5 seconds left, read at instant 0 with a 1800-second window. -/
theorem C6_sliding_window_witness :
    redisTtl [(sessionKey "abc", "cookiedata", 1800)] 0 (sessionKey "abc") =
      ((1800 : Nat) : Int) ∧
    ∀ (st3 : RedisState) (now2 : Nat) (token2 : String),
      (session_exists { ttl := 1800 } st3 now2 token2).2 = st3 :=
  C6_sliding_window { ttl := 1800 } [(sessionKey "abc", "cookiedata", 5)] 0
    "abc" "cookiedata" [(sessionKey "abc", "cookiedata", 1800)]
    (by decide) (by rfl)

end TeeSniper
